import Mathlib

/-!
Shallow embedding of the geometry core of the Terrain Height Tools module
(`src/module/geometry/height-map.mjs`), together with theorems settling the
frozen claims about the cell store, history stack, shape builder, line of
sight engine and region flattener.

Numbers are modelled as exact rationals.  External collaborators (the grid
adapter, the terrain-type catalog, the canvas, and geometric primitives that
live in files not part of this source tree, such as line-segment angle and
polygon containment tests) enter as explicit parameters, following the
specification of the external interfaces.
-/

namespace THT

/-- A grid position `[row, col]`. -/
abbrev Pos := Int × Int

/-- One entry of `HeightMap.data`: a painted cell assignment.
`height` and `elevation` are `Option` because a JavaScript object field can
hold `undefined`; cells written by `paintCells` always carry `some` values. -/
structure Cell where
  position : Pos
  terrainTypeId : String
  height : Option ℚ
  elevation : Option ℚ
deriving DecidableEq, Repr

/-- One per-position snapshot inside a history entry (`HeightMap._history`).
`terrainTypeId = none` encodes the source sentinel for a previously empty
cell.  `height` and `elevation` are `Option` because the source stores
`existing?.height` style values that may be `undefined`. -/
structure HistoryRecord where
  position : Pos
  terrainTypeId : Option String
  height : Option ℚ
  elevation : Option ℚ
deriving DecidableEq, Repr

/-- A pixel-space point. -/
abbrev Point := ℚ × ℚ

/-- A merged shape: a boundary polygon (vertex list), hole polygons, and the
terrain metadata shared by the cells it was built from. -/
structure HeightMapShape where
  polygon : List Point
  holes : List (List Point)
  terrainTypeId : String
  height : ℚ
  elevation : ℚ
deriving DecidableEq, Repr

/-- The mutable state of one `HeightMap` instance: the sorted cell data, the
bounded undo history, and the derived shape cache. -/
structure Store where
  data : List Cell
  history : List (List HistoryRecord)
  shapes : List HeightMapShape
deriving DecidableEq, Repr

/-- `maxHistoryItems` from the source. -/
def maxHistoryItems : Nat := 10

/-- The `while (length > maxHistoryItems) shift()` loop of `#pushHistory`:
drop entries from the front until at most `maxHistoryItems` remain. -/
def trimHistory : List (List HistoryRecord) → List (List HistoryRecord)
  | [] => []
  | x :: t => if (x :: t).length ≤ maxHistoryItems then x :: t else trimHistory t

/-- `#pushHistory`: append the new entry, then evict oldest entries while the
stack exceeds the bound. -/
def pushHistoryList (l : List (List HistoryRecord)) (entry : List HistoryRecord) :
    List (List HistoryRecord) :=
  trimHistory (l ++ [entry])

/-- `#sortData`: sort the cell list row-major then column-major
(comparator `a[0] - b[0] || a[1] - b[1]`).  The comparator induces a total
preorder, and insertion sort is a stable sort, matching the JavaScript
`Array.prototype.sort`. -/
def posLe (a b : Pos) : Bool :=
  a.1 < b.1 || (a.1 == b.1 && a.2 ≤ b.2)

/-- Stable insertion of a cell into a sorted cell list. -/
def insertCell (c : Cell) : List Cell → List Cell
  | [] => [c]
  | x :: xs => if posLe c.position x.position then c :: x :: xs else x :: insertCell c xs

/-- Sorting of the cell data as performed by `#sortData`. -/
def sortData (l : List Cell) : List Cell :=
  l.foldr insertCell []

/-- `#saveChanges` first purges cells whose terrain type no longer exists in
the catalog (the persistence write itself is external). -/
def saveChanges (avail : List String) (data : List Cell) : List Cell :=
  data.filter (fun c => avail.contains c.terrainTypeId)

/-- `get(row, col)`: the first cell at the given position, if any. -/
def getCell (s : Store) (p : Pos) : Option Cell :=
  s.data.find? (fun c => c.position.1 == p.1 && c.position.2 == p.2)

/-- Index-based variant of `get` (the source mutates the found object in
place; we update the found index). -/
def findCellIdx (data : List Cell) (p : Pos) : Option Nat :=
  data.findIdx? (fun c => c.position.1 == p.1 && c.position.2 == p.2)

/-- State threaded through the `paintCells` loop: current data, history
records gathered so far, and the `anyAdded` flag. -/
structure PaintLoopState where
  data : List Cell
  history : List HistoryRecord
  anyAdded : Bool

/-- One iteration of the `paintCells` cell loop. -/
def paintOneCell (terrainTypeId : String) (height elevation : ℚ) (overwrite : Bool)
    (st : PaintLoopState) (cell : Pos) : PaintLoopState :=
  match findCellIdx st.data cell with
  | some i =>
    match st.data.get? i with
    | none => st
    | some existing =>
      if !overwrite then st
      else if existing.terrainTypeId == terrainTypeId && existing.height == some height
          && existing.elevation == some elevation then st
      else
        { data := st.data.set i
            { existing with
              terrainTypeId := terrainTypeId
              height := some height
              elevation := some elevation },
          history := st.history ++
            [{ position := cell
               terrainTypeId := some existing.terrainTypeId
               height := existing.height
               elevation := existing.elevation }],
          anyAdded := st.anyAdded }
  | none =>
    { data := st.data ++
        [{ position := cell
           terrainTypeId := terrainTypeId
           height := some height
           elevation := some elevation }],
      history := st.history ++
        [{ position := cell
           terrainTypeId := none
           height := none
           elevation := none }],
      anyAdded := true }

/-- `paintCells`.  A thrown validation error is modelled as `Except.error`
carrying the message and the state visible at the throw site; both
validations happen before the mutation loop, so that state is the input
store.  `recalc` abstracts `_recalculateShapes` (it derives the shape cache
from the cell data via the external grid adapter), `avail` is the terrain
catalog id set used by `#saveChanges`, and `usesHeight` is the catalog's
height-capability flag for `terrainTypeId`. -/
def paintCells (recalc : List Cell → List HeightMapShape) (avail : List String)
    (usesHeight : Bool) (s : Store) (cells : List Pos) (terrainTypeId : String)
    (height elevation : ℚ) (overwrite : Bool) :
    Except (String × Store) (Bool × Store) :=
  if usesHeight ∧ height ≤ 0 then
    .error ("`height` must be a positive, non-zero number.", s)
  else if usesHeight ∧ elevation < 0 then
    .error ("`elevation` must be a positive number or zero.", s)
  else
    let st := cells.foldl (paintOneCell terrainTypeId height elevation overwrite)
      { data := s.data, history := [], anyAdded := false }
    let data1 := if st.anyAdded then sortData st.data else st.data
    if st.history.length > 0 then
      let data2 := saveChanges avail data1
      .ok (true, { data := data2
                   history := pushHistoryList s.history st.history
                   shapes := recalc data2 })
    else
      .ok (false, { s with data := data1 })

/-- State threaded through the `eraseCells` loop. -/
structure EraseLoopState where
  data : List Cell
  history : List HistoryRecord

/-- One iteration of the `eraseCells` loop.  Note that the source pushes a
history record holding only `position`, `terrainTypeId` and `height`: the
`elevation` field is absent (`undefined`), modelled here as `none`. -/
def eraseOneCell (st : EraseLoopState) (cell : Pos) : EraseLoopState :=
  match findCellIdx st.data cell with
  | none => st
  | some i =>
    match st.data.get? i with
    | none => st
    | some c =>
      { data := st.data.eraseIdx i
        history := st.history ++
          [{ position := cell
             terrainTypeId := some c.terrainTypeId
             height := c.height
             elevation := none }] }

/-- `eraseCells`. -/
def eraseCells (recalc : List Cell → List HeightMapShape) (avail : List String)
    (s : Store) (cells : List Pos) : Bool × Store :=
  let st := cells.foldl eraseOneCell { data := s.data, history := [] }
  if st.history.length > 0 then
    let data2 := saveChanges avail st.data
    (true, { data := data2
             history := pushHistoryList s.history st.history
             shapes := recalc data2 })
  else
    (false, { s with data := st.data })

/-- The value returned by `fillCells`: the source returns the empty array
`[]` on the early matching path and a boolean otherwise. -/
inductive FillResult where
  | emptyArray : FillResult
  | boolean : Bool → FillResult
deriving DecidableEq, Repr

/-- `fillCells`.  The flood-fill cell enumeration (`#findFillCells`, which
consults the external canvas bounds and grid adjacency) is abstracted as the
`findFill` parameter.  Only `terrainTypeId` and `height` of the start cell
are compared on the early-out path; `elevation` is not consulted. -/
def fillCells (recalc : List Cell → List HeightMapShape) (avail : List String)
    (usesHeight : Bool) (findFill : Store → Pos → List Pos) (s : Store)
    (startCell : Pos) (terrainTypeId : String) (height elevation : ℚ) :
    Except (String × Store) (FillResult × Store) :=
  let startMatches :=
    match getCell s startCell with
    | some c => c.terrainTypeId == terrainTypeId && c.height == some height
    | none => false
  if startMatches then .ok (.emptyArray, s)
  else
    let cellsToPaint := findFill s startCell
    if cellsToPaint.length == 0 then .ok (.boolean false, s)
    else
      match paintCells recalc avail usesHeight s cellsToPaint terrainTypeId height elevation true with
      | .error e => .error e
      | .ok (b, s1) => .ok (.boolean b, s1)

/-- `clear()`: empties the data and the shape cache; the history stack is not
touched. -/
def clearStore (s : Store) : Bool × Store :=
  if s.data.length == 0 then (false, s)
  else (true, { data := [], history := s.history, shapes := [] })

/-- One iteration of the `undo` revert loop over the popped history entry. -/
def undoOneRecord (st : Bool × List Cell) (r : HistoryRecord) : Bool × List Cell :=
  let (anyAdded, data) := st
  match findCellIdx data r.position with
  | some i =>
    match r.terrainTypeId with
    | none => (anyAdded, data.eraseIdx i)
    | some tt =>
      match data.get? i with
      | none => (anyAdded, data)
      | some c =>
        (anyAdded, data.set i
          { c with terrainTypeId := tt, height := r.height, elevation := r.elevation })
  | none =>
    match r.terrainTypeId with
    | none => (anyAdded, data)
    | some tt =>
      (true, data ++
        [{ position := r.position
           terrainTypeId := tt
           height := r.height
           elevation := r.elevation }])

/-- `undo()`: pops the last history entry and applies its inverse per
position.  Returns `false` with no other effect when the history is empty;
otherwise returns `true`.  The shape cache is not recomputed by `undo` in
the source, so `shapes` is left as-is. -/
def undoStore (avail : List String) (s : Store) : Bool × Store :=
  match s.history.getLast? with
  | none => (false, s)
  | some revertChanges =>
    let rest := s.history.dropLast
    let (anyAdded, data1) := revertChanges.foldl undoOneRecord (false, s.data)
    let data2 := if anyAdded then sortData data1 else data1
    let data3 := saveChanges avail data2
    (true, { data := data3, history := rest, shapes := s.shapes })

/-! ## Line of sight: intersection regions and the region flattener -/

/-- A point along the line of sight ray: pixel position, height, and the
ray-parametric position `t`. -/
structure RegionEndpoint where
  x : ℚ
  y : ℚ
  h : ℚ
  t : ℚ
deriving DecidableEq, Repr

/-- A `LineOfSightIntersectionRegion`: one inside-interval of the ray through
a shape.  `stop` models the source field named `end`. -/
structure LOSRegion where
  start : RegionEndpoint
  stop : RegionEndpoint
  skimmed : Bool
deriving DecidableEq, Repr

/-- The per-shape output of the line of sight engine that the flattener
consumes. -/
abbrev ShapeRegions := List (HeightMapShape × List LOSRegion)

/-- A flattened region.  `start` is an `Option` because the source seeds the
sweep with `lastPosition = undefined` (the comment there notes the first
boundary always has zero active regions, so `none` is never emitted). -/
structure FlatRegion where
  start : Option RegionEndpoint
  stop : RegionEndpoint
  terrainTypeId : String
  height : ℚ
  elevation : ℚ
  skimmed : Bool
deriving DecidableEq, Repr

/-- Modelled from the spec: `distinctBy` of `array-utils.mjs` is not under
`src/`.  The flattener collects "the set of distinct `t` values"; we keep
the first endpoint carrying each distinct `t`. -/
def distinctByT (l : List RegionEndpoint) : List RegionEndpoint :=
  l.foldl (fun acc r => if acc.any (fun x => x.t == r.t) then acc else acc ++ [r]) []

/-- Stable insertion for the ascending-`t` sort. -/
def insertByT (r : RegionEndpoint) : List RegionEndpoint → List RegionEndpoint
  | [] => [r]
  | x :: xs => if r.t ≤ x.t then r :: x :: xs else x :: insertByT r xs

/-- The `.sort((a, b) => a.t - b.t)` call: ascending by `t`.  The `t` values
are distinct at this point, so the sorted result is the unique ascending
permutation and any correct sort models it. -/
def sortByT (l : List RegionEndpoint) : List RegionEndpoint :=
  l.foldr insertByT []

/-- The event points of the flattener: all region start/end points, first
deduplicated by `t` and then sorted ascending by `t`. -/
def flattenBoundaries (shapeRegions : ShapeRegions) : List RegionEndpoint :=
  sortByT (distinctByT (shapeRegions.flatMap (fun s => s.2.flatMap (fun r => [r.start, r.stop]))))

/-- `Math.min` over a list (nonempty at every use site; `0` for `[]`). -/
def minList : List ℚ → ℚ
  | [] => 0
  | x :: xs => xs.foldl min x

/-- `Math.max` over a list (nonempty at every use site; `0` for `[]`). -/
def maxList : List ℚ → ℚ
  | [] => 0
  | x :: xs => xs.foldl max x

/-- The regions "active" at boundary value `t`: per input shape, the first
region with `start.t < t` and `end.t >= t`, as the source computes with
`map` + `find` + `filter`. -/
def activeRegionsAt (shapeRegions : ShapeRegions) (t : ℚ) :
    List (HeightMapShape × LOSRegion) :=
  shapeRegions.filterMap (fun sr =>
    (sr.2.find? (fun r => decide (r.start.t < t) && decide (r.stop.t ≥ t))).map
      (fun r => (sr.1, r)))

/-- The flattened entry built from a nonempty active list, spanning from
`lastPosition` to the boundary. -/
def flatEntry (lastPosition : Option RegionEndpoint) (boundary : RegionEndpoint)
    (active : List (HeightMapShape × LOSRegion)) (a0 : HeightMapShape × LOSRegion) :
    FlatRegion :=
  { start := lastPosition
    stop := boundary
    terrainTypeId := a0.1.terrainTypeId
    height := maxList (active.map (fun a => a.1.height + a.1.elevation)) -
      minList (active.map (fun a => a.1.elevation))
    elevation := minList (active.map (fun a => a.1.elevation))
    skimmed := active.length == 1 && a0.2.skimmed }

/-- The flattener sweep over the sorted boundaries, threading
`lastPosition`. -/
def flattenGo (shapeRegions : ShapeRegions) (lastPosition : Option RegionEndpoint) :
    List RegionEndpoint → List FlatRegion
  | [] => []
  | b :: bs =>
    match activeRegionsAt shapeRegions b.t with
    | [] => flattenGo shapeRegions (some b) bs
    | a0 :: rest =>
      flatEntry lastPosition b (a0 :: rest) a0 :: flattenGo shapeRegions (some b) bs

/-- `flattenLineOfSightIntersectionRegions`. -/
def flattenLineOfSightIntersectionRegions (shapeRegions : ShapeRegions) : List FlatRegion :=
  flattenGo shapeRegions none (flattenBoundaries shapeRegions)

/-! ## Line of sight: `calculateLineOfSight` and its pre-filter -/

/-- A line of sight endpoint `(x, y, h)`. -/
structure LOSPoint where
  x : ℚ
  y : ℚ
  h : ℚ
deriving DecidableEq, Repr

/-- `getIntersectionsOfShape`, split at its height pre-filter.  When the
terrain uses height and both endpoint heights are strictly above the shape
top (`elevation + height`) or strictly below the shape bottom (`elevation`),
the source returns `[]` before any 2D work.  The remainder of the function
(clipping, edge intersection, the sweep and skim handling) is the `body`
parameter; the claims settled here hold for every such body, hence for the
source one. -/
def getIntersectionsOfShape
    (body : HeightMapShape → LOSPoint → LOSPoint → Bool → List LOSRegion)
    (shape : HeightMapShape) (p1 p2 : LOSPoint) (usesHeight : Bool) : List LOSRegion :=
  let shapeTop := shape.elevation + shape.height
  let shapeBottom := shape.elevation
  if usesHeight ∧ p1.h > shapeTop ∧ p2.h > shapeTop then []
  else if usesHeight ∧ p1.h < shapeBottom ∧ p2.h < shapeBottom then []
  else body shape p1 p2 usesHeight

/-- `calculateLineOfSight`.  `terrainTypes` models the catalog map from
terrain type id to its `usesHeight` flag; a shape whose id is absent
(deleted terrain type) is skipped, a no-height shape is skipped unless
`includeNoHeightTerrain`, and a shape with an empty region list is omitted
from the results. -/
def calculateLineOfSight
    (body : HeightMapShape → LOSPoint → LOSPoint → Bool → List LOSRegion)
    (terrainTypes : List (String × Bool)) (shapes : List HeightMapShape)
    (p1 p2 : LOSPoint) (includeNoHeightTerrain : Bool) : ShapeRegions :=
  shapes.filterMap (fun shape =>
    match terrainTypes.lookup shape.terrainTypeId with
    | none => none
    | some usesHeight =>
      if !usesHeight && !includeNoHeightTerrain then none
      else
        let regions := getIntersectionsOfShape body shape p1 p2 usesHeight
        if regions.length > 0 then some (shape, regions) else none)

/-! ## Shape builder: polygon merge, loop walking and hole assignment

The geometric primitives used here live in `polygon.mjs` and
`line-segment.mjs`, which are external to this source tree; they enter as
parameters: `ab` models `LineSegment.angleBetween`, `cw` models
`LineSegment.clockwise` on the first edge of a polygon, `cp` models
`Polygon.containsPolygon`, and `iy` models `LineSegment.intersectsYAt`. -/

/-- An edge of a cell polygon (`LineSegment` with endpoints `p1`, `p2`). -/
structure LineSegment where
  p1 : Point
  p2 : Point
deriving DecidableEq, Repr

/-- Modelled from the spec: `LineSegment.equals` of `line-segment.mjs` is
not under `src/`.  Step 3 of the shape builder cancels "duplicate edges
(same two endpoints, reversed)", so equality is reversed-endpoint
equality. -/
def segEquals (a b : LineSegment) : Bool :=
  a.p1 == b.p2 && a.p2 == b.p1

/-- Modelled from the spec: `Polygon.edges` of `polygon.mjs` is not under
`src/`.  A polygon is a "closed ordered vertex sequence", so its edges are
the consecutive vertex pairs, wrapping at the end. -/
def polyEdges (vs : List Point) : List LineSegment :=
  (vs.zip (vs.rotate 1)).map (fun ab => { p1 := ab.1, p2 := ab.2 })

/-- Remove the first element matching `e` under `segEquals`, if any. -/
def removeFirstMatch (e : LineSegment) : List LineSegment → Option (List LineSegment)
  | [] => none
  | x :: xs =>
    if segEquals e x then some xs
    else (removeFirstMatch e xs).map (fun r => x :: r)

/-- The duplicate-edge cancellation loop of `#combinePolygons`, with an
explicit step bound: each edge is matched with the first later reversed
duplicate and both are removed.  `fuel` only bounds the recursion; the
wrapper passes the list length, which always suffices (each step shortens
the list), so the `fuel = 0` fallback is unreachable for nonempty input. -/
def cancelDupFuel : Nat → List LineSegment → List LineSegment
  | 0, l => l
  | _ + 1, [] => []
  | fuel + 1, e :: rest =>
    match removeFirstMatch e rest with
    | some rest1 => cancelDupFuel fuel rest1
    | none => e :: cancelDupFuel fuel rest

/-- Duplicate-edge cancellation at its sufficient step bound. -/
def cancelDuplicates (l : List LineSegment) : List LineSegment :=
  cancelDupFuel l.length l

/-- The candidate edges starting at the given point, with their indices in
the remaining edge list (`i` is the index of the list head). -/
def candidateIdxs (pt : Point) : List LineSegment → Nat → List (Nat × LineSegment)
  | [], _ => []
  | e :: es, i =>
    if e.p1 == pt then (i, e) :: candidateIdxs pt es (i + 1)
    else candidateIdxs pt es (i + 1)

/-- The candidate chosen by the source: the only one, or (after the
ascending stable sort on `angleBetween`) the first candidate attaining the
smallest angle from the incoming edge. -/
def bestCandidate (ab : LineSegment → LineSegment → ℚ) (lastEdge : LineSegment) :
    List (Nat × LineSegment) → Option (Nat × LineSegment)
  | [] => none
  | c :: cs =>
    some (cs.foldl (fun best x => if ab lastEdge x.2 < ab lastEdge best.2 then x else best) c)

/-- The inner `while` loop of `#combinePolygons`: follow candidate edges
from the end of the last edge until the loop closes back at `firstPt`.
Returns the loop's edges and the unconsumed edges.  `fuel` is an upper bound
on the number of steps; every call site passes `remaining.length`, which
suffices because each step consumes one remaining edge, so the `fuel = 0`
branch (which can then only be reached with no remaining candidates) raises
the same missing-edge error as the source. -/
def walkLoop (ab : LineSegment → LineSegment → ℚ) (firstPt : Point) :
    Nat → LineSegment → List LineSegment → List LineSegment →
    Except String (List LineSegment × List LineSegment)
  | fuel, lastEdge, acc, remaining =>
    if lastEdge.p2 == firstPt then .ok (acc.reverse, remaining)
    else
      match bestCandidate ab lastEdge (candidateIdxs lastEdge.p2 remaining 0) with
      | none => .error "Invalid graph detected. Missing edge."
      | some je =>
        match fuel with
        | 0 => .error "Invalid graph detected. Missing edge."
        | fuel1 + 1 =>
          walkLoop ab firstPt fuel1 je.2 (je.2 :: acc) (remaining.eraseIdx je.1)

/-- The outer loop of `#combinePolygons`, with an explicit step bound:
repeatedly pull the next unvisited edge and walk it into a closed loop;
each completed loop becomes a polygon (the `p1` vertices of its edges).
Each outer step consumes at least the pulled edge, so the wrapper fuel
(the number of edges) always suffices and the `fuel = 0` fallback is
unreachable for nonempty input. -/
def walkAllFuel (ab : LineSegment → LineSegment → ℚ) :
    Nat → List LineSegment → Except String (List (List Point))
  | 0, _ => .ok []
  | _ + 1, [] => .ok []
  | fuel + 1, e :: rest =>
    match walkLoop ab e.p1 rest.length e [e] rest with
    | .error m => .error m
    | .ok lr =>
      match walkAllFuel ab fuel lr.2 with
      | .error m => .error m
      | .ok polys => .ok (lr.1.map (fun s => s.p1) :: polys)

/-- Loop walking at its sufficient step bound. -/
def walkAll (ab : LineSegment → LineSegment → ℚ) (edges : List LineSegment) :
    Except String (List (List Point)) :=
  walkAllFuel ab edges.length edges

/-- Whether a loop is a solid boundary: the source tests
`polygon.edges[0].clockwise` (clockwise means it is not a hole); `cw` models
that external primitive and `false` is supplied for a loop with no edge
(unreachable for walked loops, which are nonempty). -/
def isSolidLoop (cw : LineSegment → Bool) (vs : List Point) : Bool :=
  match polyEdges vs with
  | [] => false
  | e :: _ => cw e

/-- The test point for hole-parent disambiguation: the first vertex at the
hole's topmost `y` (`boundingBox.y1`), offset downward by a small epsilon
(`game.canvas.grid.h * 0.05`, here the parameter `epsY`). -/
def holeTestPoint (epsY : ℚ) (vs : List Point) : Option Point :=
  match vs.map (fun p => p.2) with
  | [] => none
  | y :: ys =>
    (vs.find? (fun p => p.2 == ys.foldl min y)).map (fun p => (p.1, p.2 + epsY))

/-- The leftward-ray crossings used to disambiguate a hole's parent among
several containing boundaries: for every edge of every containing boundary
(paired with its index into the solid list), the `x` at which the edge meets
the horizontal line through `tp`, kept when truthy and strictly left of
`tp`.  `iy` models `LineSegment.intersectsYAt`; the JavaScript truthiness
filter `x.intersectsAt && ...` also drops a crossing at exactly `x = 0`. -/
def holeCrossings (iy : LineSegment → ℚ → Option ℚ)
    (containing : List (Nat × HeightMapShape)) (tp : Point) : List (ℚ × Nat) :=
  containing.flatMap (fun isp =>
    (polyEdges isp.2.polygon).filterMap (fun e =>
      match iy e tp.2 with
      | none => none
      | some x => if x == 0 then none else if x < tp.1 then some (x, isp.1) else none))

/-- The crossing the source selects: after the descending stable sort on
`intersectsAt`, the first entry, i.e. the earliest entry attaining the
largest crossing `x`. -/
def bestCrossing : List (ℚ × Nat) → Option (ℚ × Nat)
  | [] => none
  | c :: cs => some (cs.foldl (fun best x => if x.1 > best.1 then x else best) c)

/-- Pairs each solid shape with its index (the JavaScript `filter` over the
solid array tracks the shape objects themselves; indices model object
identity). -/
def enumShapes (solids : List HeightMapShape) : List (Nat × HeightMapShape) :=
  solids.enum

/-- Append a hole to the solid shape at index `i`. -/
def addHoleAt (solids : List HeightMapShape) (i : Nat) (hole : List Point) :
    List HeightMapShape :=
  match solids.get? i with
  | none => solids
  | some s => solids.set i { s with holes := s.holes ++ [hole] }

/-- Assign one hole loop to its parent boundary, as the hole loop of
`#combinePolygons` does: error when no solid contains it; direct assignment
when exactly one does; otherwise the leftward-ray disambiguation, erroring
when the ray crosses no edge. -/
def assignHole (cp : List Point → List Point → Bool) (iy : LineSegment → ℚ → Option ℚ)
    (epsY : ℚ) (solids : List HeightMapShape) (hole : List Point) :
    Except String (List HeightMapShape) :=
  let containing := (enumShapes solids).filter (fun isp => cp isp.2.polygon hole)
  match containing with
  | [] => .error "Could not find a parent polygon for this hole."
  | [isp] => .ok (addHoleAt solids isp.1 hole)
  | _ =>
    match holeTestPoint epsY hole with
    | none => .error "Could not find a parent polygon for this hole."
    | some tp =>
      match bestCrossing (holeCrossings iy containing tp) with
      | none => .error "Could not find a parent polygon for this hole."
      | some xi => .ok (addHoleAt solids xi.2 hole)

/-- The hole loop of `#combinePolygons`, folded over all hole polygons. -/
def assignHoles (cp : List Point → List Point → Bool) (iy : LineSegment → ℚ → Option ℚ)
    (epsY : ℚ) (solids : List HeightMapShape) :
    List (List Point) → Except String (List HeightMapShape)
  | [] => .ok solids
  | hole :: rest =>
    match assignHole cp iy epsY solids hole with
    | .error m => .error m
    | .ok solids1 => assignHoles cp iy epsY solids1 rest

/-- The part of `#combinePolygons` after duplicate-edge cancellation: walk
the loops, classify them by winding into solids and holes, and assign every
hole to a parent boundary. -/
def combinePolygonsFromEdges (ab : LineSegment → LineSegment → ℚ)
    (cw : LineSegment → Bool) (cp : List Point → List Point → Bool)
    (iy : LineSegment → ℚ → Option ℚ) (epsY : ℚ)
    (terrainTypeId : String) (height elevation : ℚ) (edges : List LineSegment) :
    Except String (List HeightMapShape) :=
  match walkAll ab edges with
  | .error m => .error m
  | .ok loops =>
    let solids := (loops.filter (fun vs => isSolidLoop cw vs)).map
      (fun p => { polygon := p, holes := [], terrainTypeId := terrainTypeId,
                  height := height, elevation := elevation : HeightMapShape })
    let holes := loops.filter (fun vs => !isSolidLoop cw vs)
    assignHoles cp iy epsY solids holes

/-- `#combinePolygons`: flatten every cell polygon's edges, cancel reversed
duplicates, then build and classify the loops and assign holes. -/
def combinePolygons (ab : LineSegment → LineSegment → ℚ)
    (cw : LineSegment → Bool) (cp : List Point → List Point → Bool)
    (iy : LineSegment → ℚ → Option ℚ) (epsY : ℚ)
    (originalPolygons : List (List Point)) (terrainTypeId : String)
    (height elevation : ℚ) : Except String (List HeightMapShape) :=
  combinePolygonsFromEdges ab cw cp iy epsY terrainTypeId height elevation
    (cancelDuplicates (originalPolygons.flatMap polyEdges))

/-- The grouping key of `_recalculateShapes` (the source builds the string
key, modelled as the tuple it encodes). -/
def groupKey (c : Cell) : String × Option ℚ × Option ℚ :=
  (c.terrainTypeId, c.height, c.elevation)

/-- Modelled from the spec: `groupBy` of `array-utils.mjs` is not under
`src/`.  Cells are grouped by `(terrainTypeId, height, elevation)`; groups
appear in first-encounter order and preserve the cell order. -/
def groupByKey (cells : List Cell) : List (List Cell) :=
  ((cells.map groupKey).dedup).map (fun k => cells.filter (fun c => groupKey c == k))

/-- `_recalculateShapes` for one cell group: the group's cells become cell
polygons through the external grid adapter `cellPoly` and are combined;
shape metadata comes from the group's first cell (whose fields are numbers
for any scene-loaded data). -/
def combineGroup (ab : LineSegment → LineSegment → ℚ) (cw : LineSegment → Bool)
    (cp : List Point → List Point → Bool) (iy : LineSegment → ℚ → Option ℚ)
    (epsY : ℚ) (cellPoly : Pos → List Point) (g : List Cell) :
    Except String (List HeightMapShape) :=
  match g with
  | [] => .ok []
  | c0 :: _ =>
    combinePolygons ab cw cp iy epsY (g.map (fun c => cellPoly c.position))
      c0.terrainTypeId (c0.height.getD 0) (c0.elevation.getD 0)

/-- `_recalculateShapes`: empty on gridless scenes, otherwise the
concatenation of each group's combined shapes; the first group that raises
a geometry-construction error aborts the whole recompute. -/
def recalculateShapes (ab : LineSegment → LineSegment → ℚ) (cw : LineSegment → Bool)
    (cp : List Point → List Point → Bool) (iy : LineSegment → ℚ → Option ℚ)
    (epsY : ℚ) (cellPoly : Pos → List Point) (gridless : Bool) (cells : List Cell) :
    Except String (List HeightMapShape) :=
  if gridless then .ok []
  else
    (groupByKey cells).foldlM (fun acc g =>
      (combineGroup ab cw cp iy epsY cellPoly g).map (fun ss => acc ++ ss)) []

/-! ## Claim-worded flattener specification (for the refinement proof) -/

/-- The `t` values of all region start points of the input (used to reason
about which event values can begin a region). -/
def regionStartTs (shapeRegions : ShapeRegions) : List ℚ :=
  shapeRegions.flatMap (fun sr => sr.2.map (fun r => r.start.t))

/-- A region spans the whole interval between consecutive boundary values
`tprev` and `t` when it starts no later than `tprev` and ends no earlier
than `t`. -/
def spansInterval (tprev t : ℚ) (r : LOSRegion) : Bool :=
  decide (r.start.t ≤ tprev) && decide (t ≤ r.stop.t)

/-- The shapes active over the interval `(tprev, t)`: per input shape, the
first of its regions spanning that interval. -/
def specActiveOn (shapeRegions : ShapeRegions) (tprev t : ℚ) :
    List (HeightMapShape × LOSRegion) :=
  shapeRegions.filterMap (fun sr =>
    (sr.2.find? (spansInterval tprev t)).map (fun r => (sr.1, r)))

/-- The flattened entry as the claim words it: elevation is the minimum
elevation among the active shapes, height is the maximum of
`elevation + height` among them minus that minimum, the terrain type comes
from the first active shape, and the entry is skimmed exactly when one
shape is active and its region is a skim. -/
def claimEntry (prev b : RegionEndpoint) (active : List (HeightMapShape × LOSRegion))
    (a0 : HeightMapShape × LOSRegion) : FlatRegion :=
  { start := some prev
    stop := b
    terrainTypeId := a0.1.terrainTypeId
    height := maxList (active.map (fun a => a.1.elevation + a.1.height)) -
      minList (active.map (fun a => a.1.elevation))
    elevation := minList (active.map (fun a => a.1.elevation))
    skimmed := decide (active.length = 1 ∧ a0.2.skimmed = true) }

/-- The flattener as the claim describes it: for every pair of consecutive
distinct boundary values, omit the interval when no shape spans it, and
otherwise emit the claim-worded entry. -/
def flattenClaimSpec (shapeRegions : ShapeRegions) : List FlatRegion :=
  let bs := flattenBoundaries shapeRegions
  (bs.zip bs.tail).filterMap (fun pb =>
    match specActiveOn shapeRegions pb.1.t pb.2.t with
    | [] => none
    | a0 :: rest => some (claimEntry pb.1 pb.2 (a0 :: rest) a0))

/-! ## History-stack lemmas -/

/-- The trimmed history length is the input length capped at the bound. -/
theorem trimHistory_length (l : List (List HistoryRecord)) :
    (trimHistory l).length = min l.length maxHistoryItems := by
  induction l with
  | nil => simp [trimHistory]
  | cons x t ih =>
    rw [trimHistory]
    split
    · next hle => simp at hle ⊢; omega
    · next hle => rw [ih]; simp at hle ⊢; omega

/-- Trimming a list already within the bound is the identity. -/
theorem trimHistory_of_le (l : List (List HistoryRecord)) (h : l.length ≤ maxHistoryItems) :
    trimHistory l = l := by
  cases l with
  | nil => rfl
  | cons x t => rw [trimHistory, if_pos (by simpa using h)]

/-- Pushing onto the history gives length `min (len + 1) 10`. -/
theorem pushHistoryList_length (l : List (List HistoryRecord)) (x : List HistoryRecord) :
    (pushHistoryList l x).length = min (l.length + 1) maxHistoryItems := by
  rw [pushHistoryList, trimHistory_length]
  simp

/-- Pushing onto a full history drops the oldest entry and appends the new
one. -/
theorem pushHistoryList_evict (l : List (List HistoryRecord)) (x : List HistoryRecord)
    (h : l.length = maxHistoryItems) : pushHistoryList l x = l.tail ++ [x] := by
  match l with
  | [] => simp [maxHistoryItems] at h
  | y :: t =>
    have ht : t.length + 1 = maxHistoryItems := by simpa using h
    rw [pushHistoryList, show (y :: t) ++ [x] = y :: (t ++ [x]) from rfl, trimHistory]
    rw [if_neg (by simp [maxHistoryItems] at ht ⊢; omega)]
    simpa using trimHistory_of_le (t ++ [x]) (by simp [maxHistoryItems] at ht ⊢; omega)

/-- Folding pushes over a within-bound history yields length
`min (len + count) 10`. -/
theorem foldl_pushHistoryList_length (es : List (List HistoryRecord)) :
    ∀ l : List (List HistoryRecord), l.length ≤ maxHistoryItems →
      (es.foldl pushHistoryList l).length = min (l.length + es.length) maxHistoryItems := by
  induction es with
  | nil => intro l h; simp; omega
  | cons x es ih =>
    intro l h
    simp only [List.foldl_cons]
    rw [ih (pushHistoryList l x) (by rw [pushHistoryList_length]; omega)]
    rw [pushHistoryList_length]
    simp only [List.length_cons]
    omega

/-- `undo` on an empty history returns `false` and leaves the store as it
was. -/
theorem undoStore_empty_history (avail : List String) (s : Store) (h : s.history = []) :
    undoStore avail s = (false, s) := by
  rw [undoStore]
  simp [h]

/-- `clear` leaves the history stack untouched. -/
theorem clearStore_history (s : Store) : ((clearStore s).2).history = s.history := by
  rw [clearStore]
  split <;> rfl

/-- After `clear` the cell data is empty. -/
theorem clearStore_data (s : Store) : ((clearStore s).2).data = [] := by
  rw [clearStore]
  split
  · next h => simpa using (List.length_eq_zero.mp (by simpa using h))
  · rfl

/-! ## Undo-fold position lemmas -/

/-- Any cell present after one undo revert step either shares a position
with a previously present cell or carries the record's position. -/
theorem undoOneRecord_positions (st : Bool × List Cell) (r : HistoryRecord) (c : Cell)
    (h : c ∈ (undoOneRecord st r).2) :
    (∃ d ∈ st.2, d.position = c.position) ∨ c.position = r.position := by
  rw [undoOneRecord] at h
  rcases st with ⟨anyAdded, data⟩
  dsimp at h
  match h1 : findCellIdx data r.position with
  | some i =>
    rw [h1] at h
    match h2 : r.terrainTypeId with
    | none =>
      rw [h2] at h
      dsimp at h
      exact Or.inl ⟨c, List.mem_of_mem_eraseIdx h, rfl⟩
    | some tt =>
      rw [h2] at h
      dsimp at h
      match h3 : data.get? i with
      | none =>
        rw [h3] at h
        exact Or.inl ⟨c, h, rfl⟩
      | some c0 =>
        rw [h3] at h
        dsimp at h
        rcases List.mem_or_eq_of_mem_set h with hm | he
        · exact Or.inl ⟨c, hm, rfl⟩
        · subst he
          exact Or.inl ⟨c0, List.get?_mem h3, rfl⟩
  | none =>
    rw [h1] at h
    match h2 : r.terrainTypeId with
    | none =>
      rw [h2] at h
      exact Or.inl ⟨c, h, rfl⟩
    | some tt =>
      rw [h2] at h
      dsimp at h
      rcases List.mem_append.mp h with hm | he
      · exact Or.inl ⟨c, hm, rfl⟩
      · simp at he
        subst he
        exact Or.inr rfl

/-- Any cell present after replaying a whole history entry either shares a
position with a previously present cell or with one of the entry's
records. -/
theorem undoFold_positions (records : List HistoryRecord) :
    ∀ (st : Bool × List Cell) (c : Cell), c ∈ (records.foldl undoOneRecord st).2 →
      (∃ d ∈ st.2, d.position = c.position) ∨ ∃ r ∈ records, r.position = c.position := by
  induction records with
  | nil => intro st c h; exact Or.inl ⟨c, h, rfl⟩
  | cons r rs ih =>
    intro st c h
    simp only [List.foldl_cons] at h
    rcases ih (undoOneRecord st r) c h with ⟨d, hd, he⟩ | ⟨r2, hr2, he⟩
    · rcases undoOneRecord_positions st r d hd with ⟨d2, hd2, he2⟩ | he2
      · exact Or.inl ⟨d2, hd2, he2.trans he⟩
      · exact Or.inr ⟨r, List.mem_cons_self r rs, he2.symm ▸ he ▸ rfl⟩
    · exact Or.inr ⟨r2, List.mem_cons_of_mem r hr2, he⟩

/-- Membership through `insertCell`. -/
theorem mem_insertCell (c x : Cell) (l : List Cell) :
    x ∈ insertCell c l ↔ x = c ∨ x ∈ l := by
  induction l with
  | nil => simp [insertCell]
  | cons y ys ih =>
    rw [insertCell]
    split
    · simp
    · simp [ih]
      tauto

/-- Membership through `sortData`. -/
theorem mem_sortData (x : Cell) (l : List Cell) : x ∈ sortData l ↔ x ∈ l := by
  induction l with
  | nil => simp [sortData]
  | cons y ys ih =>
    rw [sortData, List.foldr_cons, mem_insertCell]
    rw [sortData] at ih
    simp [ih]

/-! ## Claim theorems: cell store and history -/

/-- C7: the undo history stack never holds more than 10 entries; every push
onto a full stack evicts the oldest entry first; a mutating paint or erase
either leaves the history unchanged (no-op) or performs exactly one such
push; after 15 pushes from an empty history the stack holds exactly 10
entries; and an undo call with an empty history returns `false` and changes
nothing. -/
theorem claim_C7_history_bound (l : List (List HistoryRecord)) (x : List HistoryRecord)
    (es : List (List HistoryRecord)) (avail : List String) (s : Store)
    (recalc : List Cell → List HeightMapShape) (usesH : Bool) (cells : List Pos)
    (tt : String) (hgt elv : ℚ) (ov b : Bool) (s1 s2 : Store) :
    (pushHistoryList l x).length ≤ maxHistoryItems ∧
    (l.length = maxHistoryItems → pushHistoryList l x = l.tail ++ [x]) ∧
    (paintCells recalc avail usesH s cells tt hgt elv ov = .ok (b, s1) →
      s1.history = s.history ∨ ∃ en, s1.history = pushHistoryList s.history en) ∧
    (eraseCells recalc avail s cells = (b, s2) →
      s2.history = s.history ∨ ∃ en, s2.history = pushHistoryList s.history en) ∧
    (es.length = 15 → (es.foldl pushHistoryList []).length = maxHistoryItems) ∧
    (s.history = [] → undoStore avail s = (false, s)) := by
  refine ⟨?_, ?_, ?_, ?_, ?_, ?_⟩
  · rw [pushHistoryList_length]
    omega
  · exact fun h => pushHistoryList_evict l x h
  · intro hok
    rw [paintCells] at hok
    split at hok
    · exact absurd hok (by simp)
    · split at hok
      · exact absurd hok (by simp)
      · dsimp only [] at hok
        split at hok
        · simp only [Except.ok.injEq, Prod.mk.injEq] at hok
          exact Or.inr ⟨_, by rw [← hok.2]⟩
        · simp only [Except.ok.injEq, Prod.mk.injEq] at hok
          exact Or.inl (by rw [← hok.2])
  · intro hok
    rw [eraseCells] at hok
    dsimp only [] at hok
    split at hok
    · simp only [Prod.mk.injEq] at hok
      exact Or.inr ⟨_, by rw [← hok.2]⟩
    · simp only [Prod.mk.injEq] at hok
      exact Or.inl (by rw [← hok.2])
  · intro h
    rw [foldl_pushHistoryList_length es [] (by simp [maxHistoryItems])]
    simp [h, maxHistoryItems]
  · exact fun h => undoStore_empty_history avail s h

/-- Witness for C7 at concrete inputs: a push onto a 10-entry stack keeps
the bound and drops the oldest entry; 15 pushes from empty give exactly 10;
undo on an empty history is a no-op returning `false`. -/
theorem claim_C7_history_bound_witness :
    (pushHistoryList (List.replicate 10 ([] : List HistoryRecord)) []).length ≤ maxHistoryItems ∧
    pushHistoryList (List.replicate 10 ([] : List HistoryRecord)) [] =
      (List.replicate 10 ([] : List HistoryRecord)).tail ++ [[]] ∧
    ((List.replicate 15 ([] : List HistoryRecord)).foldl pushHistoryList []).length =
      maxHistoryItems ∧
    undoStore [] ⟨[], [], []⟩ = (false, (⟨[], [], []⟩ : Store)) := by
  have h := claim_C7_history_bound (List.replicate 10 ([] : List HistoryRecord)) []
    (List.replicate 15 ([] : List HistoryRecord)) [] ⟨[], [], []⟩
    (fun _ => []) true [] "t" 1 0 true true ⟨[], [], []⟩ ⟨[], [], []⟩
  exact ⟨h.1, h.2.1 (by simp [maxHistoryItems]), h.2.2.2.2.1 (by simp), h.2.2.2.2.2 rfl⟩

/-- C9: `clear()` pushes no history entry and leaves the history stack
unchanged; an `undo()` after a clear therefore does not restore the cleared
cells: with an empty history it returns `false` and changes nothing, and
otherwise it pops and replays the most recent pre-clear entry, so every
cell present afterwards carries a position of that entry. -/
theorem claim_C9_clear_leaves_history (avail : List String) (s : Store) :
    ((clearStore s).2).history = s.history ∧
    (s.history = [] → undoStore avail (clearStore s).2 = (false, (clearStore s).2)) ∧
    (∀ entry, s.history.getLast? = some entry →
      (undoStore avail (clearStore s).2).1 = true ∧
      (undoStore avail (clearStore s).2).2.history = s.history.dropLast ∧
      ∀ c ∈ (undoStore avail (clearStore s).2).2.data, ∃ r ∈ entry, r.position = c.position) := by
  have h1 : ((clearStore s).2).history = s.history := clearStore_history s
  have hd : ((clearStore s).2).data = [] := clearStore_data s
  refine ⟨h1, ?_, ?_⟩
  · intro h
    exact undoStore_empty_history avail (clearStore s).2 (by rw [h1, h])
  · intro entry hent
    have hscrut : ((clearStore s).2).history.getLast? = some entry := by rw [h1]; exact hent
    rw [undoStore, hscrut]
    dsimp only []
    constructor
    · rfl
    constructor
    · rw [h1]
    · intro c hc
      rw [hd] at hc
      have hc1 : c ∈ (if (entry.foldl undoOneRecord (false, [])).1 then
          sortData (entry.foldl undoOneRecord (false, [])).2
        else (entry.foldl undoOneRecord (false, [])).2) := by
        have := List.mem_filter.mp hc
        exact this.1
      have hc2 : c ∈ (entry.foldl undoOneRecord (false, ([] : List Cell))).2 := by
        by_cases hcase : (entry.foldl undoOneRecord (false, ([] : List Cell))).1
        · rw [if_pos hcase] at hc1
          exact (mem_sortData c _).mp hc1
        · rw [if_neg hcase] at hc1
          exact hc1
      rcases undoFold_positions entry (false, []) c hc2 with ⟨d, hdm, _⟩ | ⟨r, hr, he⟩
      · simp at hdm
      · exact ⟨r, hr, he⟩

/-- Witness for C9 at a concrete store: clearing keeps the one-entry
history, the empty-history branch at an emptied store, and the replayed
entry's position constraint. -/
theorem claim_C9_clear_leaves_history_witness :
    (((clearStore ⟨[⟨((0 : ℤ), (0 : ℤ)), "t", some 1, some 2⟩], [], []⟩).2).history =
        ([] : List (List HistoryRecord)) ∧
      undoStore ["t"] (clearStore ⟨[⟨((0 : ℤ), (0 : ℤ)), "t", some 1, some 2⟩], [], []⟩).2 =
        (false, (clearStore ⟨[⟨((0 : ℤ), (0 : ℤ)), "t", some 1, some 2⟩], [], []⟩).2)) ∧
    ((undoStore ["t"] (clearStore ⟨[⟨((0 : ℤ), (0 : ℤ)), "t", some 1, some 2⟩],
        [[⟨((0 : ℤ), (0 : ℤ)), some "t", some 1, some 2⟩]], []⟩).2).1 = true ∧
      ∀ c ∈ (undoStore ["t"] (clearStore ⟨[⟨((0 : ℤ), (0 : ℤ)), "t", some 1, some 2⟩],
          [[⟨((0 : ℤ), (0 : ℤ)), some "t", some 1, some 2⟩]], []⟩).2).2.data,
        ∃ r ∈ [(⟨((0 : ℤ), (0 : ℤ)), some "t", some 1, some 2⟩ : HistoryRecord)],
          r.position = c.position) := by
  have h1 := claim_C9_clear_leaves_history ["t"]
    ⟨[⟨((0 : ℤ), (0 : ℤ)), "t", some 1, some 2⟩], [], []⟩
  have h2 := claim_C9_clear_leaves_history ["t"]
    ⟨[⟨((0 : ℤ), (0 : ℤ)), "t", some 1, some 2⟩],
      [[⟨((0 : ℤ), (0 : ℤ)), some "t", some 1, some 2⟩]], []⟩
  refine ⟨⟨h1.1, h1.2.1 rfl⟩, ?_⟩
  have h3 := h2.2.2 [⟨((0 : ℤ), (0 : ℤ)), some "t", some 1, some 2⟩] rfl
  exact ⟨h3.1, h3.2.2⟩

/-- C4: with a height-using terrain type, painting with `height ≤ 0` or
`elevation < 0` raises a validation error before any mutation: the error
escapes with the cell store, history stack and shape list exactly as they
were. -/
theorem claim_C4_paint_validation (recalc : List Cell → List HeightMapShape)
    (avail : List String) (s : Store) (cells : List Pos) (tt : String)
    (hgt elv : ℚ) (ov : Bool) (hbad : hgt ≤ 0 ∨ elv < 0) :
    ∃ msg, paintCells recalc avail true s cells tt hgt elv ov = .error (msg, s) := by
  by_cases h1 : hgt ≤ 0
  · exact ⟨"`height` must be a positive, non-zero number.",
      by rw [paintCells]; simp [h1]⟩
  · have h2 : elv < 0 := by tauto
    exact ⟨"`elevation` must be a positive number or zero.",
      by rw [paintCells]; simp [h1, h2]⟩

/-- Witness for C4: painting with height `0` fails and hands back the input
store untouched. -/
theorem claim_C4_paint_validation_witness :
    ∃ msg, paintCells (fun _ => []) [] true ⟨[], [], []⟩
      [((0 : ℤ), (0 : ℤ))] "t" 0 0 true = .error (msg, (⟨[], [], []⟩ : Store)) :=
  claim_C4_paint_validation (fun _ => []) [] ⟨[], [], []⟩
    [((0 : ℤ), (0 : ℤ))] "t" 0 0 true (Or.inl le_rfl)

/-- C10: when the start cell's existing terrain type and height both equal
the requested ones, `fillCells` is a no-op — the store (data, history and
shapes) is returned unchanged with the early-out value — even when the
requested elevation differs from the cell's. -/
theorem claim_C10_fill_noop (recalc : List Cell → List HeightMapShape) (avail : List String)
    (usesH : Bool) (findFill : Store → Pos → List Pos) (s : Store) (start : Pos)
    (tt : String) (hgt elv : ℚ) (c : Cell) (hget : getCell s start = some c)
    (htt : c.terrainTypeId = tt) (hh : c.height = some hgt) :
    fillCells recalc avail usesH findFill s start tt hgt elv = .ok (.emptyArray, s) := by
  rw [fillCells]
  simp [hget, htt, hh]

/-- Witness for C10: a cell painted at elevation `0` blocks a fill
requesting the same type and height at elevation `5`. -/
theorem claim_C10_fill_noop_witness :
    fillCells (fun _ => []) ["t"] true (fun _ _ => [])
      ⟨[⟨((0 : ℤ), (0 : ℤ)), "t", some 1, some 0⟩], [], []⟩
      ((0 : ℤ), (0 : ℤ)) "t" 1 5 =
      .ok (.emptyArray, ⟨[⟨((0 : ℤ), (0 : ℤ)), "t", some 1, some 0⟩], [], []⟩) :=
  claim_C10_fill_noop (fun _ => []) ["t"] true (fun _ _ => [])
    ⟨[⟨((0 : ℤ), (0 : ℤ)), "t", some 1, some 0⟩], [], []⟩
    ((0 : ℤ), (0 : ℤ)) "t" 1 5 ⟨((0 : ℤ), (0 : ℤ)), "t", some 1, some 0⟩ rfl rfl rfl

/-- C2 (code bug): painting a cell at elevation `2`, erasing it, and undoing
leaves the cell with `elevation = none` (`undefined`), not the prior
`some 2`, because `eraseCells` omits the `elevation` field from its history
record (height-map.mjs line 170) even though the declared history-entry
shape requires it. -/
theorem claim_C2_erase_undo_drops_elevation :
    paintCells (fun _ => []) ["t"] true ⟨[], [], []⟩
      [((0 : ℤ), (0 : ℤ))] "t" 1 2 true =
      .ok (true, ⟨[⟨((0 : ℤ), (0 : ℤ)), "t", some 1, some 2⟩],
        [[⟨((0 : ℤ), (0 : ℤ)), none, none, none⟩]], []⟩) ∧
    eraseCells (fun _ => []) ["t"]
      ⟨[⟨((0 : ℤ), (0 : ℤ)), "t", some 1, some 2⟩],
        [[⟨((0 : ℤ), (0 : ℤ)), none, none, none⟩]], []⟩
      [((0 : ℤ), (0 : ℤ))] =
      (true, ⟨[],
        [[⟨((0 : ℤ), (0 : ℤ)), none, none, none⟩],
          [⟨((0 : ℤ), (0 : ℤ)), some "t", some 1, none⟩]], []⟩) ∧
    undoStore ["t"]
      ⟨[],
        [[⟨((0 : ℤ), (0 : ℤ)), none, none, none⟩],
          [⟨((0 : ℤ), (0 : ℤ)), some "t", some 1, none⟩]], []⟩ =
      (true, ⟨[⟨((0 : ℤ), (0 : ℤ)), "t", some 1, none⟩],
        [[⟨((0 : ℤ), (0 : ℤ)), none, none, none⟩]], []⟩) ∧
    (⟨((0 : ℤ), (0 : ℤ)), "t", some 1, none⟩ : Cell) ≠ ⟨((0 : ℤ), (0 : ℤ)), "t", some 1, some 2⟩ := by
  refine ⟨rfl, by decide, by decide, by decide⟩

/-- C8 (code bug): `fillCells` on a start cell whose terrain type and
height already match returns the raw empty array, not the boolean its
contract (and every other mutation operation) promises. -/
theorem claim_C8_fill_returns_empty_array :
    fillCells (fun _ => []) ["t"] true (fun _ _ => [])
      ⟨[⟨((0 : ℤ), (0 : ℤ)), "t", some 1, some 0⟩], [], []⟩
      ((0 : ℤ), (0 : ℤ)) "t" 1 0 =
      .ok (.emptyArray, ⟨[⟨((0 : ℤ), (0 : ℤ)), "t", some 1, some 0⟩], [], []⟩) ∧
    ∀ b : Bool, (FillResult.emptyArray : FillResult) ≠ .boolean b := by
  refine ⟨rfl, ?_⟩
  intro b h
  cases h

/-! ## Claim theorems: line of sight pre-filter -/

/-- When a height-using shape sits entirely below both endpoint heights,
the intersection computation returns no regions before any 2D work. -/
theorem getIntersectionsOfShape_above
    (body : HeightMapShape → LOSPoint → LOSPoint → Bool → List LOSRegion)
    (shape : HeightMapShape) (p1 p2 : LOSPoint)
    (h1 : p1.h > shape.elevation + shape.height) (h2 : p2.h > shape.elevation + shape.height) :
    getIntersectionsOfShape body shape p1 p2 true = [] := by
  rw [getIntersectionsOfShape]
  simp [h1, h2]

/-- When a height-using shape sits entirely above both endpoint heights,
the intersection computation returns no regions before any 2D work. -/
theorem getIntersectionsOfShape_below
    (body : HeightMapShape → LOSPoint → LOSPoint → Bool → List LOSRegion)
    (shape : HeightMapShape) (p1 p2 : LOSPoint)
    (h1 : p1.h < shape.elevation) (h2 : p2.h < shape.elevation) :
    getIntersectionsOfShape body shape p1 p2 true = [] := by
  rw [getIntersectionsOfShape]
  by_cases hib : (true : Bool) ∧ p1.h > shape.elevation + shape.height ∧
      p2.h > shape.elevation + shape.height
  · rw [if_pos hib]
  · rw [if_neg hib, if_pos ⟨rfl, h1, h2⟩]

/-- C5: every entry of `calculateLineOfSight` concerns a shape whose
terrain type still exists, which is height-using or requested via
`includeNoHeightTerrain`, whose vertical span is not entirely below or
entirely above both endpoint heights (when height-using), and whose region
list is nonempty — shapes failing any of these are omitted, for every
possible intersection body. -/
theorem claim_C5_los_prefilter
    (body : HeightMapShape → LOSPoint → LOSPoint → Bool → List LOSRegion)
    (terrainTypes : List (String × Bool)) (shapes : List HeightMapShape)
    (p1 p2 : LOSPoint) (inc : Bool) (s : HeightMapShape) (rs : List LOSRegion)
    (hmem : (s, rs) ∈ calculateLineOfSight body terrainTypes shapes p1 p2 inc) :
    ∃ u, terrainTypes.lookup s.terrainTypeId = some u ∧
      (u = false → inc = true) ∧
      (u = true → ¬(p1.h > s.elevation + s.height ∧ p2.h > s.elevation + s.height) ∧
        ¬(p1.h < s.elevation ∧ p2.h < s.elevation)) ∧
      rs ≠ [] := by
  rw [calculateLineOfSight] at hmem
  obtain ⟨a, ha, hf⟩ := List.mem_filterMap.mp hmem
  match hl : terrainTypes.lookup a.terrainTypeId with
  | none => rw [hl] at hf; simp at hf
  | some u =>
    rw [hl] at hf
    dsimp only [] at hf
    by_cases hcase : (!u && !inc) = true
    · rw [if_pos (by simpa using hcase)] at hf
      simp at hf
    · rw [if_neg (by simpa using hcase)] at hf
      split at hf
      · next hlen =>
        simp only [Option.some.injEq, Prod.mk.injEq] at hf
        obtain ⟨hs, hrs⟩ := hf
        subst hs
        refine ⟨u, hl, ?_, ?_, ?_⟩
        · intro hu
          subst hu
          cases inc with
          | false => simp at hcase
          | true => rfl
        · intro hu
          subst hu
          constructor
          · intro hboth
            rw [getIntersectionsOfShape_above body a p1 p2 hboth.1 hboth.2] at hlen
            simp at hlen
          · intro hboth
            rw [getIntersectionsOfShape_below body a p1 p2 hboth.1 hboth.2] at hlen
            simp at hlen
        · intro hnil
          rw [← hrs] at hnil
          rw [hnil] at hlen
          simp at hlen
      · simp at hf

/-- Witness for C5: a height-using shape straddled by the ray with a
nonempty body region produces an entry, and the theorem's conclusions hold
there. -/
theorem claim_C5_los_prefilter_witness :
    ∃ u, [("t", true)].lookup (⟨[], [], "t", 1, 0⟩ : HeightMapShape).terrainTypeId = some u ∧
      (u = false → true = true) ∧
      (u = true →
        ¬((⟨0, 0, 0⟩ : LOSPoint).h >
            (⟨[], [], "t", 1, 0⟩ : HeightMapShape).elevation +
              (⟨[], [], "t", 1, 0⟩ : HeightMapShape).height ∧
          (⟨1, 1, 1⟩ : LOSPoint).h >
            (⟨[], [], "t", 1, 0⟩ : HeightMapShape).elevation +
              (⟨[], [], "t", 1, 0⟩ : HeightMapShape).height) ∧
        ¬((⟨0, 0, 0⟩ : LOSPoint).h < (⟨[], [], "t", 1, 0⟩ : HeightMapShape).elevation ∧
          (⟨1, 1, 1⟩ : LOSPoint).h < (⟨[], [], "t", 1, 0⟩ : HeightMapShape).elevation)) ∧
      [(⟨⟨0, 0, 0, 0⟩, ⟨1, 1, 1, 1⟩, false⟩ : LOSRegion)] ≠ [] :=
  claim_C5_los_prefilter (fun _ _ _ _ => [⟨⟨0, 0, 0, 0⟩, ⟨1, 1, 1, 1⟩, false⟩])
    [("t", true)] [⟨[], [], "t", 1, 0⟩] ⟨0, 0, 0⟩ ⟨1, 1, 1⟩ true
    ⟨[], [], "t", 1, 0⟩ [⟨⟨0, 0, 0, 0⟩, ⟨1, 1, 1, 1⟩, false⟩]
    (by rw [calculateLineOfSight, List.filterMap_cons]
        norm_num [List.lookup, getIntersectionsOfShape])

/-! ## Claim theorems: shape builder error handling and hole assignment -/

/-- The fold computing the best (largest-`x`) crossing never decreases the
seed, stays within the seed and the candidates, and dominates every
candidate. -/
theorem bestCrossing_foldl (cs : List (ℚ × Nat)) :
    ∀ b : ℚ × Nat,
      b.1 ≤ (cs.foldl (fun best x => if x.1 > best.1 then x else best) b).1 ∧
      ((cs.foldl (fun best x => if x.1 > best.1 then x else best) b) = b ∨
        (cs.foldl (fun best x => if x.1 > best.1 then x else best) b) ∈ cs) ∧
      ∀ y ∈ cs, y.1 ≤ (cs.foldl (fun best x => if x.1 > best.1 then x else best) b).1 := by
  induction cs with
  | nil => intro b; exact ⟨le_refl _, Or.inl rfl, by simp⟩
  | cons x cs ih =>
    intro b
    simp only [List.foldl_cons]
    by_cases hx : x.1 > b.1
    · rw [if_pos hx]
      obtain ⟨h1, h2, h3⟩ := ih x
      refine ⟨le_trans (le_of_lt hx) h1, ?_, ?_⟩
      · rcases h2 with h2 | h2
        · exact Or.inr (by rw [h2]; exact List.mem_cons_self x cs)
        · exact Or.inr (List.mem_cons_of_mem x h2)
      · intro y hy
        rcases List.mem_cons.mp hy with hy | hy
        · exact hy ▸ h1
        · exact h3 y hy
    · rw [if_neg hx]
      obtain ⟨h1, h2, h3⟩ := ih b
      refine ⟨h1, ?_, ?_⟩
      · rcases h2 with h2 | h2
        · exact Or.inl h2
        · exact Or.inr (List.mem_cons_of_mem x h2)
      · intro y hy
        rcases List.mem_cons.mp hy with hy | hy
        · exact hy ▸ le_trans (le_of_not_lt hx) h1
        · exact h3 y hy

/-- A returned best crossing belongs to the candidate list and attains its
maximum `x`. -/
theorem bestCrossing_spec (l : List (ℚ × Nat)) (c : ℚ × Nat) (h : bestCrossing l = some c) :
    c ∈ l ∧ ∀ y ∈ l, y.1 ≤ c.1 := by
  match l with
  | [] => simp [bestCrossing] at h
  | x :: cs =>
    rw [bestCrossing] at h
    simp only [Option.some.injEq] at h
    obtain ⟨h1, h2, h3⟩ := bestCrossing_foldl cs x
    subst h
    refine ⟨?_, ?_⟩
    · rcases h2 with h2 | h2
      · exact (by rw [h2]; exact List.mem_cons_self x cs)
      · exact List.mem_cons_of_mem x h2
    · intro y hy
      rcases List.mem_cons.mp hy with hy | hy
      · exact hy ▸ h1
      · exact h3 y hy

/-- `bestCrossing` returns `none` only on the empty candidate list. -/
theorem bestCrossing_eq_none (l : List (ℚ × Nat)) (h : bestCrossing l = none) : l = [] := by
  match l with
  | [] => rfl
  | x :: cs => simp [bestCrossing] at h

/-- An erroring group makes the whole shape-recompute fold error. -/
theorem foldlM_group_error (f : List Cell → Except String (List HeightMapShape))
    (groups : List (List Cell)) :
    ∀ acc, (∃ g ∈ groups, ∃ m, f g = .error m) →
      ∃ m2, (groups.foldlM (fun acc g => (f g).map (fun ss => acc ++ ss)) acc :
        Except String (List HeightMapShape)) = .error m2 := by
  induction groups with
  | nil => intro acc h; simp at h
  | cons g gs ih =>
    intro acc h
    match hfg : f g with
    | .error m =>
      refine ⟨m, ?_⟩
      show (f g).map (fun ss => acc ++ ss) >>= (fun a2 => gs.foldlM _ a2) = _
      rw [hfg]
      rfl
    | .ok v =>
      obtain ⟨g0, hg0, m, hm⟩ := h
      have hg0gs : g0 ∈ gs := by
        rcases List.mem_cons.mp hg0 with he | hm2
        · subst he; rw [hfg] at hm; exact absurd hm (by simp)
        · exact hm2
      obtain ⟨m2, hm2⟩ := ih (acc ++ v) ⟨g0, hg0gs, m, hm⟩
      refine ⟨m2, ?_⟩
      show (f g).map (fun ss => acc ++ ss) >>= (fun a2 => gs.foldlM _ a2) = _
      rw [hfg]
      exact hm2

/-- C3: each of the three geometry-construction failure conditions raises an
error that propagates: a walk state with no candidate edge before closure
errors; a walk error aborts the polygon combine; a hole with no containing
boundary errors; a hole whose disambiguation ray crosses no edge errors;
a hole-assignment error aborts the polygon combine; and an erroring group
aborts the whole shape recompute — never yielding a partial shape set. -/
theorem claim_C3_geometry_errors (ab : LineSegment → LineSegment → ℚ)
    (cw : LineSegment → Bool) (cp : List Point → List Point → Bool)
    (iy : LineSegment → ℚ → Option ℚ) (epsY : ℚ) (cellPoly : Pos → List Point)
    (tt : String) (hgt elv : ℚ) :
    (∀ (fuel : Nat) (lastEdge : LineSegment) (firstPt : Point)
        (acc remaining : List LineSegment),
      (lastEdge.p2 == firstPt) = false →
      candidateIdxs lastEdge.p2 remaining 0 = [] →
      walkLoop ab firstPt fuel lastEdge acc remaining =
        .error "Invalid graph detected. Missing edge.") ∧
    (∀ edges m, walkAll ab edges = .error m →
      combinePolygonsFromEdges ab cw cp iy epsY tt hgt elv edges = .error m) ∧
    (∀ solids hole, (enumShapes solids).filter (fun isp => cp isp.2.polygon hole) = [] →
      assignHole cp iy epsY solids hole =
        .error "Could not find a parent polygon for this hole.") ∧
    (∀ solids hole c1 c2 cs tp,
      (enumShapes solids).filter (fun isp => cp isp.2.polygon hole) = c1 :: c2 :: cs →
      holeTestPoint epsY hole = some tp →
      holeCrossings iy (c1 :: c2 :: cs) tp = [] →
      assignHole cp iy epsY solids hole =
        .error "Could not find a parent polygon for this hole.") ∧
    (∀ edges loops m, walkAll ab edges = .ok loops →
      assignHoles cp iy epsY
        ((loops.filter (fun vs => isSolidLoop cw vs)).map
          (fun p => { polygon := p, holes := [], terrainTypeId := tt,
                      height := hgt, elevation := elv }))
        (loops.filter (fun vs => !isSolidLoop cw vs)) = .error m →
      combinePolygonsFromEdges ab cw cp iy epsY tt hgt elv edges = .error m) ∧
    (∀ cells g m, g ∈ groupByKey cells →
      combineGroup ab cw cp iy epsY cellPoly g = .error m →
      ∃ m2, recalculateShapes ab cw cp iy epsY cellPoly false cells = .error m2) := by
  refine ⟨?_, ?_, ?_, ?_, ?_, ?_⟩
  · intro fuel lastEdge firstPt acc remaining hne hcand
    rw [walkLoop, if_neg (by simp [hne]), hcand]
    rfl
  · intro edges m hw
    rw [combinePolygonsFromEdges, hw]
  · intro solids hole hfilt
    rw [assignHole]
    rw [hfilt]
  · intro solids hole c1 c2 cs tp hfilt htp hcr
    rw [assignHole, hfilt, htp]
    dsimp only
    rw [hcr]
    rfl
  · intro edges loops m hw ha
    rw [combinePolygonsFromEdges, hw]
    exact ha
  · intro cells g m hg hcomb
    rw [recalculateShapes, if_neg (by simp)]
    exact foldlM_group_error (combineGroup ab cw cp iy epsY cellPoly) (groupByKey cells) []
      ⟨g, hg, m, hcomb⟩

/-- C6: when exactly one boundary polygon contains a hole, the hole is
appended to that boundary; when several contain it and the leftward ray
crosses an edge, the hole is appended to the boundary whose crossing is
horizontally nearest (largest crossing `x` left of the offset topmost
vertex). -/
theorem claim_C6_hole_parent (cp : List Point → List Point → Bool)
    (iy : LineSegment → ℚ → Option ℚ) (epsY : ℚ) (solids : List HeightMapShape)
    (hole : List Point) :
    (∀ i s, (enumShapes solids).filter (fun isp => cp isp.2.polygon hole) = [(i, s)] →
      solids.get? i = some s ∧
      assignHole cp iy epsY solids hole =
        .ok (solids.set i { s with holes := s.holes ++ [hole] })) ∧
    (∀ c1 c2 cs tp,
      (enumShapes solids).filter (fun isp => cp isp.2.polygon hole) = c1 :: c2 :: cs →
      holeTestPoint epsY hole = some tp →
      holeCrossings iy (c1 :: c2 :: cs) tp ≠ [] →
      ∃ x j, (x, j) ∈ holeCrossings iy (c1 :: c2 :: cs) tp ∧
        (∀ y ∈ holeCrossings iy (c1 :: c2 :: cs) tp, y.1 ≤ x) ∧
        assignHole cp iy epsY solids hole = .ok (addHoleAt solids j hole)) := by
  constructor
  · intro i s hfilt
    have hmem : (i, s) ∈ (enumShapes solids).filter (fun isp => cp isp.2.polygon hole) := by
      rw [hfilt]
      exact List.mem_singleton.mpr rfl
    have hget : solids.get? i = some s := by
      rw [List.get?_eq_getElem?]
      exact List.mk_mem_enum_iff_getElem?.mp (List.mem_filter.mp hmem).1
    refine ⟨hget, ?_⟩
    rw [assignHole, hfilt]
    dsimp only
    rw [addHoleAt, hget]
  · intro c1 c2 cs tp hfilt htp hne
    match hbc : bestCrossing (holeCrossings iy (c1 :: c2 :: cs) tp) with
    | none => exact absurd (bestCrossing_eq_none _ hbc) hne
    | some xj =>
      obtain ⟨hmem, hmax⟩ := bestCrossing_spec _ xj hbc
      refine ⟨xj.1, xj.2, hmem, hmax, ?_⟩
      rw [assignHole, hfilt, htp]
      dsimp only
      rw [hbc]

/-- Witness for C3: concrete instances reaching each error conjunct — a
dangling edge stalls the walk; that walk error aborts the combine; a hole
with no containing boundary errors; two containing boundaries with a
crossing-free ray error; that hole error aborts the combine; and an
erroring group aborts the recompute. -/
theorem claim_C3_geometry_errors_witness :
    walkLoop (fun _ _ => (0 : ℚ)) ((0 : ℚ), (0 : ℚ)) 0
      ⟨((0 : ℚ), (0 : ℚ)), ((1 : ℚ), (1 : ℚ))⟩ [] [] =
      .error "Invalid graph detected. Missing edge." ∧
    combinePolygonsFromEdges (fun _ _ => 0) (fun _ => false) (fun _ _ => false)
      (fun _ _ => none) 1 "t" 1 0 [⟨((0 : ℚ), (0 : ℚ)), ((1 : ℚ), (1 : ℚ))⟩] =
      .error "Invalid graph detected. Missing edge." ∧
    assignHole (fun _ _ => false) (fun _ _ => none) 1 [] [((5 : ℚ), (5 : ℚ))] =
      .error "Could not find a parent polygon for this hole." ∧
    assignHole (fun _ _ => true) (fun _ _ => none) 1
      [⟨[((0 : ℚ), (0 : ℚ))], [], "a", 1, 0⟩, ⟨[((1 : ℚ), (0 : ℚ))], [], "b", 1, 0⟩]
      [((5 : ℚ), (5 : ℚ))] =
      .error "Could not find a parent polygon for this hole." ∧
    combinePolygonsFromEdges (fun _ _ => 0) (fun _ => false) (fun _ _ => false)
      (fun _ _ => none) 1 "t" 1 0 [⟨((0 : ℚ), (0 : ℚ)), ((0 : ℚ), (0 : ℚ))⟩] =
      .error "Could not find a parent polygon for this hole." ∧
    ∃ m2, recalculateShapes (fun _ _ => 0) (fun _ => false) (fun _ _ => false)
      (fun _ _ => none) 1 (fun _ => [((0 : ℚ), (0 : ℚ))]) false
      [⟨((0 : ℤ), (0 : ℤ)), "t", some 1, some 0⟩] = .error m2 := by
  have hthm := claim_C3_geometry_errors (fun _ _ => (0 : ℚ)) (fun _ => false)
    (fun _ _ => false) (fun _ _ => none) 1 (fun _ => [((0 : ℚ), (0 : ℚ))]) "t" 1 0
  have hthm2 := claim_C3_geometry_errors (fun _ _ => (0 : ℚ)) (fun _ => false)
    (fun _ _ => true) (fun _ _ => none) 1 (fun _ => [((0 : ℚ), (0 : ℚ))]) "t" 1 0
  refine ⟨?_, ?_, ?_, ?_, ?_, ?_⟩
  · exact hthm.1 0 ⟨((0 : ℚ), (0 : ℚ)), ((1 : ℚ), (1 : ℚ))⟩ ((0 : ℚ), (0 : ℚ)) [] []
      (by decide) rfl
  · exact hthm.2.1 [⟨((0 : ℚ), (0 : ℚ)), ((1 : ℚ), (1 : ℚ))⟩]
      "Invalid graph detected. Missing edge." rfl
  · exact hthm.2.2.1 [] [((5 : ℚ), (5 : ℚ))] rfl
  · exact hthm2.2.2.2.1
      [⟨[((0 : ℚ), (0 : ℚ))], [], "a", 1, 0⟩, ⟨[((1 : ℚ), (0 : ℚ))], [], "b", 1, 0⟩]
      [((5 : ℚ), (5 : ℚ))]
      (0, ⟨[((0 : ℚ), (0 : ℚ))], [], "a", 1, 0⟩) (1, ⟨[((1 : ℚ), (0 : ℚ))], [], "b", 1, 0⟩) []
      ((5 : ℚ), (6 : ℚ)) rfl (by rw [holeTestPoint]; norm_num) rfl
  · exact hthm.2.2.2.2.1 [⟨((0 : ℚ), (0 : ℚ)), ((0 : ℚ), (0 : ℚ))⟩] [[((0 : ℚ), (0 : ℚ))]]
      "Could not find a parent polygon for this hole." rfl rfl
  · exact hthm.2.2.2.2.2 [⟨((0 : ℤ), (0 : ℤ)), "t", some 1, some 0⟩]
      [⟨((0 : ℤ), (0 : ℤ)), "t", some 1, some 0⟩]
      "Could not find a parent polygon for this hole."
      (by decide) rfl

/-- Witness for C6: with a containment oracle marking exactly the second
boundary, the hole lands on it; with both boundaries containing the hole
and unit crossings, the hole lands on a maximal crossing's boundary. -/
theorem claim_C6_hole_parent_witness :
    ([⟨[((0 : ℚ), (0 : ℚ))], [], "a", 1, 0⟩,
        (⟨[((1 : ℚ), (0 : ℚ))], [], "b", 1, 0⟩ : HeightMapShape)].get? 1 =
      some ⟨[((1 : ℚ), (0 : ℚ))], [], "b", 1, 0⟩ ∧
      assignHole (fun p _ => p == [((1 : ℚ), (0 : ℚ))]) (fun _ _ => none) 1
        [⟨[((0 : ℚ), (0 : ℚ))], [], "a", 1, 0⟩, ⟨[((1 : ℚ), (0 : ℚ))], [], "b", 1, 0⟩]
        [((5 : ℚ), (5 : ℚ))] =
        .ok ([⟨[((0 : ℚ), (0 : ℚ))], [], "a", 1, 0⟩,
          ⟨[((1 : ℚ), (0 : ℚ))], [], "b", 1, 0⟩].set 1
          ⟨[((1 : ℚ), (0 : ℚ))], [[((5 : ℚ), (5 : ℚ))]], "b", 1, 0⟩)) ∧
    ∃ x j, (x, j) ∈ holeCrossings (fun _ _ => some 1)
        [(0, ⟨[((0 : ℚ), (0 : ℚ))], [], "a", 1, 0⟩), (1, ⟨[((1 : ℚ), (0 : ℚ))], [], "b", 1, 0⟩)]
        ((5 : ℚ), (6 : ℚ)) ∧
      (∀ y ∈ holeCrossings (fun _ _ => some 1)
          [(0, ⟨[((0 : ℚ), (0 : ℚ))], [], "a", 1, 0⟩),
            (1, ⟨[((1 : ℚ), (0 : ℚ))], [], "b", 1, 0⟩)]
          ((5 : ℚ), (6 : ℚ)), y.1 ≤ x) ∧
      assignHole (fun _ _ => true) (fun _ _ => some 1) 1
        [⟨[((0 : ℚ), (0 : ℚ))], [], "a", 1, 0⟩, ⟨[((1 : ℚ), (0 : ℚ))], [], "b", 1, 0⟩]
        [((5 : ℚ), (5 : ℚ))] =
        .ok (addHoleAt
          [⟨[((0 : ℚ), (0 : ℚ))], [], "a", 1, 0⟩, ⟨[((1 : ℚ), (0 : ℚ))], [], "b", 1, 0⟩]
          j [((5 : ℚ), (5 : ℚ))]) := by
  constructor
  · have h1 := (claim_C6_hole_parent (fun p _ => p == [((1 : ℚ), (0 : ℚ))]) (fun _ _ => none) 1
      [⟨[((0 : ℚ), (0 : ℚ))], [], "a", 1, 0⟩, ⟨[((1 : ℚ), (0 : ℚ))], [], "b", 1, 0⟩]
      [((5 : ℚ), (5 : ℚ))]).1 1 ⟨[((1 : ℚ), (0 : ℚ))], [], "b", 1, 0⟩ (by decide)
    exact ⟨h1.1, h1.2⟩
  · exact (claim_C6_hole_parent (fun _ _ => true) (fun _ _ => some 1) 1
      [⟨[((0 : ℚ), (0 : ℚ))], [], "a", 1, 0⟩, ⟨[((1 : ℚ), (0 : ℚ))], [], "b", 1, 0⟩]
      [((5 : ℚ), (5 : ℚ))]).2
      (0, ⟨[((0 : ℚ), (0 : ℚ))], [], "a", 1, 0⟩) (1, ⟨[((1 : ℚ), (0 : ℚ))], [], "b", 1, 0⟩) []
      ((5 : ℚ), (6 : ℚ)) rfl (by rw [holeTestPoint]; norm_num) (by decide)

/-! ## Flattener refinement: sorting and deduplication lemmas -/

/-- Inserting into the `t`-sort yields a permutation of consing. -/
theorem insertByT_perm (r : RegionEndpoint) (l : List RegionEndpoint) :
    (insertByT r l).Perm (r :: l) := by
  induction l with
  | nil => simp [insertByT]
  | cons x xs ih =>
    rw [insertByT]
    split
    · exact List.Perm.refl _
    · exact ((ih.cons x).trans (List.Perm.swap r x xs))

/-- The `t`-sort permutes its input. -/
theorem sortByT_perm (l : List RegionEndpoint) : (sortByT l).Perm l := by
  induction l with
  | nil => simp [sortByT]
  | cons x xs ih =>
    rw [sortByT, List.foldr_cons]
    exact (insertByT_perm x (sortByT xs)).trans (ih.cons x)

/-- Insertion preserves sortedness by `t`. -/
theorem insertByT_sorted (r : RegionEndpoint) (l : List RegionEndpoint)
    (h : l.Pairwise (fun a b => a.t ≤ b.t)) :
    (insertByT r l).Pairwise (fun a b => a.t ≤ b.t) := by
  induction l with
  | nil => simp [insertByT]
  | cons x xs ih =>
    rw [insertByT]
    obtain ⟨hx, hxs⟩ := List.pairwise_cons.mp h
    split
    · next hle =>
      refine List.pairwise_cons.mpr ⟨?_, h⟩
      intro y hy
      rcases List.mem_cons.mp hy with hy | hy
      · exact hy ▸ hle
      · exact le_trans hle (hx y hy)
    · next hgt =>
      refine List.pairwise_cons.mpr ⟨?_, ih hxs⟩
      intro y hy
      have hy2 : y ∈ r :: xs := (insertByT_perm r xs).mem_iff.mp hy
      rcases List.mem_cons.mp hy2 with hy2 | hy2
      · exact hy2 ▸ le_of_not_le hgt
      · exact hx y hy2

/-- The `t`-sort sorts ascending by `t`. -/
theorem sortByT_sorted (l : List RegionEndpoint) :
    (sortByT l).Pairwise (fun a b => a.t ≤ b.t) := by
  induction l with
  | nil => simp [sortByT]
  | cons x xs ih =>
    rw [sortByT, List.foldr_cons]
    exact insertByT_sorted x (sortByT xs) ih

/-- One step of the deduplication fold. -/
def distinctStep (acc : List RegionEndpoint) (r : RegionEndpoint) : List RegionEndpoint :=
  if acc.any (fun x => x.t == r.t) then acc else acc ++ [r]

/-- `distinctByT` is the fold of `distinctStep`. -/
theorem distinctByT_eq_foldl (l : List RegionEndpoint) :
    distinctByT l = l.foldl distinctStep [] := rfl

/-- The dedup fold only ever extends its accumulator. -/
theorem foldl_distinctStep_mono (l : List RegionEndpoint) :
    ∀ (acc : List RegionEndpoint) (z : RegionEndpoint), z ∈ acc →
      z ∈ l.foldl distinctStep acc := by
  induction l with
  | nil => intro acc z hz; simpa using hz
  | cons x xs ih =>
    intro acc z hz
    rw [List.foldl_cons]
    refine ih (distinctStep acc x) z ?_
    rw [distinctStep]
    split
    · exact hz
    · exact List.mem_append.mpr (Or.inl hz)

/-- Every input `t` value is covered by the dedup fold's output. -/
theorem foldl_distinctStep_cover (l : List RegionEndpoint) :
    ∀ (acc : List RegionEndpoint) (x : RegionEndpoint), x ∈ l →
      ∃ y ∈ l.foldl distinctStep acc, y.t = x.t := by
  induction l with
  | nil => intro acc x hx; simp at hx
  | cons x0 xs ih =>
    intro acc x hx
    rcases List.mem_cons.mp hx with he | hm
    · subst he
      rw [List.foldl_cons, distinctStep]
      split
      · next hany =>
        obtain ⟨y, hy, hyt⟩ := List.any_eq_true.mp hany
        exact ⟨y, foldl_distinctStep_mono xs acc y hy, by simpa using hyt⟩
      · exact ⟨x, foldl_distinctStep_mono xs (acc ++ [x]) x
          (List.mem_append.mpr (Or.inr (List.mem_singleton.mpr rfl))), rfl⟩
    · rw [List.foldl_cons]
      exact ih (distinctStep acc x0) x hm

/-- The dedup fold keeps the `t` values pairwise distinct. -/
theorem foldl_distinctStep_nodup (l : List RegionEndpoint) :
    ∀ acc : List RegionEndpoint, acc.Pairwise (fun a b => a.t ≠ b.t) →
      (l.foldl distinctStep acc).Pairwise (fun a b => a.t ≠ b.t) := by
  induction l with
  | nil => intro acc h; simpa using h
  | cons x xs ih =>
    intro acc h
    rw [List.foldl_cons]
    refine ih (distinctStep acc x) ?_
    rw [distinctStep]
    split
    · exact h
    · next hany =>
      refine List.pairwise_append.mpr ⟨h, by simp, ?_⟩
      have hall : ∀ a ∈ acc, ¬(a.t == x.t) = true := by
        intro a ha hft
        exact hany (List.any_eq_true.mpr ⟨a, ha, hft⟩)
      intro a ha b hb
      rw [List.mem_singleton.mp hb]
      simpa using hall a ha

/-- The flattener's boundary list is strictly ascending in `t`. -/
theorem flattenBoundaries_sorted_lt (srs : ShapeRegions) :
    (flattenBoundaries srs).Pairwise (fun a b => a.t < b.t) := by
  have hle := sortByT_sorted (distinctByT
    (srs.flatMap (fun s => s.2.flatMap (fun r => [r.start, r.stop]))))
  have hne0 := foldl_distinctStep_nodup
    (srs.flatMap (fun s => s.2.flatMap (fun r => [r.start, r.stop]))) [] (by simp)
  have hne : (flattenBoundaries srs).Pairwise (fun a b => a.t ≠ b.t) := by
    refine (List.Perm.pairwise_iff ?_ (sortByT_perm _)).mpr (distinctByT_eq_foldl _ ▸ hne0)
    intro a b hab
    exact fun he => hab he.symm
  exact (hle.and hne).imp (fun hab => lt_of_le_of_ne hab.1 hab.2)

/-- Every region endpoint `t` of the input appears among the boundary `t`
values. -/
theorem flattenBoundaries_cover (srs : ShapeRegions) (e : RegionEndpoint)
    (he : e ∈ srs.flatMap (fun s => s.2.flatMap (fun r => [r.start, r.stop]))) :
    e.t ∈ (flattenBoundaries srs).map (fun x => x.t) := by
  obtain ⟨y, hy, hyt⟩ := foldl_distinctStep_cover _ [] e he
  rw [← distinctByT_eq_foldl] at hy
  have hy2 : y ∈ flattenBoundaries srs := (sortByT_perm _).mem_iff.mpr hy
  exact List.mem_map.mpr ⟨y, hy2, hyt⟩

/-- A region's start `t` is always a boundary `t` value. -/
theorem start_t_mem_boundaries (srs : ShapeRegions) (sr : HeightMapShape × List LOSRegion)
    (hsr : sr ∈ srs) (r : LOSRegion) (hr : r ∈ sr.2) :
    r.start.t ∈ (flattenBoundaries srs).map (fun x => x.t) := by
  refine flattenBoundaries_cover srs r.start ?_
  refine List.mem_flatMap.mpr ⟨sr, hsr, ?_⟩
  refine List.mem_flatMap.mpr ⟨r, hr, ?_⟩
  simp

/-- Pointwise-equal predicates find the same first element. -/
theorem find?_congr_mem (p q : LOSRegion → Bool) (l : List LOSRegion)
    (h : ∀ a ∈ l, p a = q a) : l.find? p = l.find? q := by
  induction l with
  | nil => rfl
  | cons x xs ih =>
    rw [List.find?_cons, List.find?_cons, h x (List.mem_cons_self x xs)]
    split
    · rfl
    · exact ih (fun a ha => h a (List.mem_cons_of_mem x ha))

/-- At a boundary `b` whose immediate predecessor among the event values is
`p`, the code's active test (`start.t < b.t`) agrees with the claim's
interval-spanning test (`start.t ≤ p.t`). -/
theorem activeRegionsAt_eq_specActiveOn (srs : ShapeRegions) (p b : RegionEndpoint)
    (hpb : p.t < b.t)
    (hstarts : ∀ sr ∈ srs, ∀ r ∈ sr.2, r.start.t ≤ p.t ∨ ¬(r.start.t < b.t)) :
    activeRegionsAt srs b.t = specActiveOn srs p.t b.t := by
  rw [activeRegionsAt, specActiveOn]
  refine List.filterMap_congr ?_
  intro sr hsr
  have hfind : sr.2.find? (fun r => decide (r.start.t < b.t) && decide (r.stop.t ≥ b.t)) =
      sr.2.find? (spansInterval p.t b.t) := by
    refine find?_congr_mem _ _ _ ?_
    intro r hr
    rw [spansInterval]
    congr 1
    refine decide_eq_decide.mpr ?_
    constructor
    · intro hlt
      rcases hstarts sr hsr r hr with hle | hnlt
      · exact hle
      · exact absurd hlt hnlt
    · intro hle
      exact lt_of_le_of_lt hle hpb
  rw [hfind]

/-- The code's flattened entry coincides with the claim-worded entry. -/
theorem flatEntry_eq_claimEntry (p b : RegionEndpoint)
    (active : List (HeightMapShape × LOSRegion)) (a0 : HeightMapShape × LOSRegion) :
    flatEntry (some p) b active a0 = claimEntry p b active a0 := by
  rw [flatEntry, claimEntry]
  have hmap : active.map (fun a => a.1.height + a.1.elevation) =
      active.map (fun a => a.1.elevation + a.1.height) :=
    List.map_eq_map_iff.mpr (fun a _ => add_comm a.1.height a.1.elevation)
  rw [hmap, Bool.decide_and, Bool.decide_coe]
  rfl

/-- The flattener sweep started right after boundary `p` equals the
claim-worded processing of the remaining consecutive boundary pairs. -/
theorem flattenGo_eq_spec (srs : ShapeRegions) :
    ∀ (bs : List RegionEndpoint) (p : RegionEndpoint),
      (p :: bs).Pairwise (fun a b => a.t < b.t) →
      (∀ sr ∈ srs, ∀ r ∈ sr.2, r.start.t ≤ p.t ∨ r.start.t ∈ bs.map (fun x => x.t)) →
      flattenGo srs (some p) bs =
        ((p :: bs).zip bs).filterMap (fun pb =>
          match specActiveOn srs pb.1.t pb.2.t with
          | [] => none
          | a0 :: rest => some (claimEntry pb.1 pb.2 (a0 :: rest) a0)) := by
  intro bs
  induction bs with
  | nil =>
    intro p hpw hst
    rfl
  | cons b rest ih =>
    intro p hpw hst
    have hpb : p.t < b.t := (List.pairwise_cons.mp hpw).1 b (List.mem_cons_self b rest)
    have hbrest : ∀ x ∈ rest, b.t < x.t :=
      (List.pairwise_cons.mp (List.pairwise_cons.mp hpw).2).1
    have hkey : activeRegionsAt srs b.t = specActiveOn srs p.t b.t := by
      refine activeRegionsAt_eq_specActiveOn srs p b hpb ?_
      intro sr hsr r hr
      rcases hst sr hsr r hr with hle | hmem
      · exact Or.inl hle
      · obtain ⟨x, hx, hxt⟩ := List.mem_map.mp hmem
        rcases List.mem_cons.mp hx with he | hm
        · exact Or.inr (by rw [← hxt, he]; exact lt_irrefl b.t)
        · exact Or.inr (by rw [← hxt]; exact not_lt_of_gt (hbrest x hm))
    have hst2 : ∀ sr ∈ srs, ∀ r ∈ sr.2, r.start.t ≤ b.t ∨ r.start.t ∈ rest.map (fun x => x.t) := by
      intro sr hsr r hr
      rcases hst sr hsr r hr with hle | hmem
      · exact Or.inl (le_trans hle (le_of_lt hpb))
      · obtain ⟨x, hx, hxt⟩ := List.mem_map.mp hmem
        rcases List.mem_cons.mp hx with he | hm
        · exact Or.inl (le_of_eq (by rw [← hxt, he]))
        · exact Or.inr (List.mem_map.mpr ⟨x, hm, hxt⟩)
    have hrec := ih b (List.pairwise_cons.mp hpw).2 hst2
    rw [List.zip_cons_cons, List.filterMap_cons]
    cases harr : activeRegionsAt srs b.t with
    | nil =>
      have hspec : specActiveOn srs p.t b.t = [] := hkey.symm.trans harr
      rw [flattenGo, harr]
      dsimp only
      rw [hspec]
      exact hrec
    | cons a0 as =>
      have hspec : specActiveOn srs p.t b.t = a0 :: as := hkey.symm.trans harr
      rw [flattenGo, harr]
      dsimp only
      rw [hspec]
      rw [flatEntry_eq_claimEntry p b (a0 :: as) a0]
      rw [hrec]

/-- C1: for every input, the flattener equals the claim-worded
specification — for each interval between consecutive distinct boundary `t`
values the interval is omitted when no shape's region spans it, and
otherwise reported with the minimum active elevation, the maximum active
`elevation + height` minus that minimum as height, the first active shape's
terrain type, and a skim exactly for a single skimming active shape — and
two overlapping shapes spanning elevations 0–3 and 2–5 flatten to
`elevation = 0`, `height = 5` on their common sub-interval. -/
theorem claim_C1_flattener (srs : ShapeRegions) :
    flattenLineOfSightIntersectionRegions srs = flattenClaimSpec srs ∧
    flattenLineOfSightIntersectionRegions
      [(⟨[], [], "A", 3, 0⟩, [⟨⟨0, 0, 0, 0⟩, ⟨0, 0, 0, 2⟩, false⟩]),
        (⟨[], [], "B", 3, 2⟩, [⟨⟨0, 0, 0, 1⟩, ⟨0, 0, 0, 4⟩, false⟩])] =
      [⟨some ⟨0, 0, 0, 0⟩, ⟨0, 0, 0, 1⟩, "A", 3, 0, false⟩,
        ⟨some ⟨0, 0, 0, 1⟩, ⟨0, 0, 0, 2⟩, "A", 5, 0, false⟩,
        ⟨some ⟨0, 0, 0, 2⟩, ⟨0, 0, 0, 4⟩, "B", 3, 2, false⟩] := by
  constructor
  · simp only [flattenLineOfSightIntersectionRegions, flattenClaimSpec]
    cases hbl : flattenBoundaries srs with
    | nil => rfl
    | cons b0 rest =>
      have hsorted := flattenBoundaries_sorted_lt srs
      rw [hbl] at hsorted
      have hb0rest : ∀ x ∈ rest, b0.t < x.t := (List.pairwise_cons.mp hsorted).1
      have hmemt : ∀ sr ∈ srs, ∀ r ∈ sr.2,
          r.start.t = b0.t ∨ r.start.t ∈ rest.map (fun x => x.t) := by
        intro sr hsr r hr
        have hmem := start_t_mem_boundaries srs sr hsr r hr
        rw [hbl] at hmem
        rcases List.mem_map.mp hmem with ⟨x, hx, hxt⟩
        rcases List.mem_cons.mp hx with he | hm
        · exact Or.inl (by rw [← hxt, he])
        · exact Or.inr (List.mem_map.mpr ⟨x, hm, hxt⟩)
      have hactive0 : activeRegionsAt srs b0.t = [] := by
        rw [activeRegionsAt]
        refine List.filterMap_eq_nil_iff.mpr ?_
        intro sr hsr
        refine Option.map_eq_none.mpr (List.find?_eq_none.mpr ?_)
        intro r hr
        simp only [Bool.and_eq_true, decide_eq_true_eq, not_and]
        intro hlt _
        rcases hmemt sr hsr r hr with he | hm
        · exact absurd hlt (by rw [he]; exact lt_irrefl b0.t)
        · obtain ⟨x, hx, hxt⟩ := List.mem_map.mp hm
          exact absurd hlt (by rw [← hxt]; exact not_lt_of_gt (hb0rest x hx))
      rw [List.tail_cons, flattenGo, hactive0]
      dsimp only
      refine flattenGo_eq_spec srs rest b0 hsorted ?_
      intro sr hsr r hr
      rcases hmemt sr hsr r hr with he | hm
      · exact Or.inl (le_of_eq he)
      · exact Or.inr hm
  · norm_num [flattenLineOfSightIntersectionRegions, flattenBoundaries, distinctByT,
      sortByT, insertByT, flattenGo, activeRegionsAt, flatEntry, minList, maxList,
      List.find?, List.filterMap, List.flatMap]

end THT
